import Mathlib

/-!
Verification of the classifiles repository (Rust): a shallow embedding of
the classification cascade (`Classifier::process_file`), the extension
database (`MimeInfoDb`), the output placement logic (`link_to_output`,
`append_ext_if_needed`, `random_name`) and the symlink backup/restore codec
(`BackupProcessor::backup_symlink`, `RestoreProcessor::restore_symlink`).

File names are modelled as `List Char`, raw path bytes as `List Nat`.
External collaborators (the filesystem, tree_magic, libmagic, roxmltree,
the rand crate) are modelled as injected oracles/parameters, following the
spec's own design notes (injected `SignatureOracle` / `DeepInspector` /
randomness source).
-/

namespace Classifiles

/-! ### Rust `std::path` file-name splitting

`Path::file_stem` / `Path::extension` on a single final component:
Rust splits the file name at the last `.`; if there is no `.`, or the part
before the last `.` is empty (hidden files like `.bashrc`), or the name is
`..`, there is no extension and the whole name is the stem. -/

/-- Walk the reversed file name looking for the first `.` (i.e. the last `.`
of the original); returns the part before it (in original order) and the
part after it (accumulated in `acc`). -/
def splitRevAtDot : List Char → List Char → Option (List Char × List Char)
  | [], _ => none
  | c :: rest, acc => if c = '.' then some (rest.reverse, acc) else splitRevAtDot rest (c :: acc)

/-- Split a file name at its last `.`: `some (before, after)` when a `.`
exists, `none` otherwise. -/
def lastDotSplit (s : List Char) : Option (List Char × List Char) :=
  splitRevAtDot s.reverse []

/-- Rust `split_file_at_dot` on a file name: returns `(file_stem, extension)`.
The name `..` and names whose last `.` is at position 0 have no extension. -/
def fileStemExt (s : List Char) : List Char × Option (List Char) :=
  if s = ['.', '.'] then (s, none)
  else match lastDotSplit s with
    | none => (s, none)
    | some (before, after) => if before = [] then (s, none) else (before, some after)

/-- Rust `Path::file_name` for a single-component relative path: `None` for
the empty path and for the special components `.` and `..`. (All names this
development feeds in are single components without `/`.) -/
def pathFileName (s : List Char) : Option (List Char) :=
  if s = [] ∨ s = ['.'] ∨ s = ['.', '.'] then none else some s

/-- Rust `Path::file_stem` for a single-component relative path. -/
def pathFileStem (s : List Char) : Option (List Char) :=
  (pathFileName s).map (fun n => (fileStemExt n).1)

/-- Rust `Path::extension` for a single-component relative path. -/
def pathExtension (s : List Char) : Option (List Char) :=
  (pathFileName s).bind (fun n => (fileStemExt n).2)

/-! ### Backup codec (`BackupProcessor`, `run_backup`) -/

/-- The `.lns` suffix appended by `backup_symlink` (`dst_str.push(".lns")`). -/
def lnsSuffix : List Char := ['.', 'l', 'n', 's']

/-- The extension string `lns` checked by `restore_symlink`. -/
def lnsExt : List Char := ['l', 'n', 's']

/-- `backup_symlink` file name: the symlink's name with `.lns` appended. -/
def encodeLinkName (name : List Char) : List Char := name ++ lnsSuffix

/-- `backup_symlink` file content: the raw link-target bytes followed by a
single `\n` byte (`[link_target_bytes, &[b'\n']].concat()`). -/
def encodeLinkContent (target : List Nat) : List Nat := target ++ [10]

/-- `backup_dir` mirrors the directory's relative path unchanged. -/
def backupDir (relpath : List (List Char)) : List (List Char) := relpath

/-- `restore_dir` recreates the directory's relative path unchanged. -/
def restoreDir (relpath : List (List Char)) : List (List Char) := relpath

/-- A filesystem entry kind as dispatched on by `run_backup`
(`symlink_metadata`: directory / symlink-with-target / regular file). -/
inductive EntryKind where
  | dir : EntryKind
  | symlink (target : List Nat) : EntryKind
  | file : EntryKind
  deriving DecidableEq, Repr

/-- What `run_backup` produces for one source entry. -/
inductive BackupOutput where
  | dirOut (name : List Char) : BackupOutput
  | fileOut (name : List Char) (content : List Nat) : BackupOutput
  deriving DecidableEq, Repr

/-- Per-entry dispatch of `run_backup`: directories are mirrored, symlinks
become `<name>.lns` files carrying `target ++ "\n"`, regular files produce
nothing (the final `else` branch of the dispatch has no arm for them). -/
def backupStep (kind : EntryKind) (name : List Char) : Option BackupOutput :=
  match kind with
  | .dir => some (.dirOut name)
  | .symlink target => some (.fileOut (encodeLinkName name) (encodeLinkContent target))
  | .file => none

/-! ### Restore codec (`RestoreProcessor::restore_symlink`) -/

/-- The trailing-newline strip of `restore_symlink`:
`src_bytes[src_bytes.len() - 1]` is read with no emptiness guard, so the
empty content panics (modelled as `none`); otherwise exactly one trailing
`\n` byte is dropped when present. -/
def stripNewline (bytes : List Nat) : Option (List Nat) :=
  match bytes.getLast? with
  | none => none
  | some b => if b = 10 then some bytes.dropLast else some bytes

/-- `restore_symlink` on one regular file of the backup tree, given its file
name and byte content. Outer `none` = panic (empty `.lns` content);
`some none` = the file was silently ignored (extension not `lns`);
`some (some (linkName, target))` = a symlink `linkName -> target` is created
(`dst.file_stem()` joined to the parent; when the stem is missing the
destination path is used unchanged). -/
def restoreFile (name : List Char) (content : List Nat) :
    Option (Option (List Char × List Nat)) :=
  if pathExtension name = some lnsExt then
    match stripNewline content with
    | none => none
    | some linkBytes => some (some ((pathFileStem name).getD name, linkBytes))
  else some none

/-! ### Helper lemmas for the codec -/

theorem splitRevAtDot_lns (r : List Char) (acc : List Char) :
    splitRevAtDot (['s', 'n', 'l', '.'] ++ r) acc = some (r.reverse, 'l' :: 'n' :: 's' :: acc) := by
  simp [splitRevAtDot]

theorem lastDotSplit_encode (name : List Char) :
    lastDotSplit (encodeLinkName name) = some (name, lnsExt) := by
  unfold lastDotSplit encodeLinkName lnsSuffix
  rw [List.reverse_append]
  simpa [lnsExt] using splitRevAtDot_lns name.reverse []

theorem encodeLinkName_ne_special (name : List Char) :
    ¬(encodeLinkName name = [] ∨ encodeLinkName name = ['.'] ∨ encodeLinkName name = ['.', '.']) := by
  rintro (h | h | h) <;>
  · have hl := congrArg List.length h
    simp [encodeLinkName, lnsSuffix] at hl

theorem fileStemExt_encode (name : List Char) (hne : name ≠ []) :
    fileStemExt (encodeLinkName name) = (name, some lnsExt) := by
  have hlen : encodeLinkName name ≠ ['.', '.'] := by
    intro h
    have hl := congrArg List.length h
    simp [encodeLinkName, lnsSuffix] at hl
  rw [fileStemExt, if_neg hlen, lastDotSplit_encode]
  simp [hne]

theorem pathExtension_encode (name : List Char) (hne : name ≠ []) :
    pathExtension (encodeLinkName name) = some lnsExt := by
  rw [pathExtension, pathFileName, if_neg (encodeLinkName_ne_special name)]
  simp [fileStemExt_encode name hne]

theorem pathFileStem_encode (name : List Char) (hne : name ≠ []) :
    pathFileStem (encodeLinkName name) = some name := by
  rw [pathFileStem, pathFileName, if_neg (encodeLinkName_ne_special name)]
  simp [fileStemExt_encode name hne]

theorem stripNewline_encode (target : List Nat) :
    stripNewline (encodeLinkContent target) = some target := by
  simp [stripNewline, encodeLinkContent]

/-! ### ExtensionDatabase (`mime_info.rs`: `Mime`, `MimeInfoDb`) -/

/-- `mime_info::Mime`: the cached extension-resolution result. -/
inductive Mime where
  | Generic : Mime
  | WithExt (ext : String) : Mime
  | Unknown : Mime
  deriving DecidableEq, Repr

/-- Rust `str::trim_start_matches("*.")`: repeatedly removes the prefix
`*.` from the front of the pattern (note: *all* occurrences, not just one). -/
def trimStarDot : List Char → List Char
  | '*' :: '.' :: rest => trimStarDot rest
  | s => s

/-- Outcome of opening, reading and XML-parsing one `<mime>.xml` file of the
on-disk glob database (injected oracle for the filesystem + roxmltree):
the file may be missing (`File::open` fails), unreadable
(`read_to_string` fails), malformed (`Document::parse` fails), or parsed,
in which case it carries the document's `glob` elements in document order,
each with its optional `pattern` attribute. -/
inductive FileOutcome where
  | missing : FileOutcome
  | unreadable : FileOutcome
  | parseError : FileOutcome
  | parsed (globs : List (Option String)) : FileOutcome
  deriving DecidableEq, Repr

/-- `MimeInfoDb::extract_glob`: the first `glob` element's `pattern`
attribute, with leading `*.` stripped, becomes `WithExt`; a `glob` element
without a `pattern` attribute, or no `glob` element at all, yields
`Generic`. -/
def extract_glob (globs : List (Option String)) : Mime :=
  match globs with
  | [] => .Generic
  | none :: _ => .Generic
  | some pattern :: _ => .WithExt (String.mk (trimStarDot pattern.data))

/-- `MimeInfoDb::parse_mime_info` composed with the file read:
a read failure yields `Unknown`; a parse failure `panic!`s (modelled as
`none`); a parsed document goes through `extract_glob`. -/
def parse_mime_info : FileOutcome → Option Mime
  | .unreadable => some .Unknown
  | .parseError => none
  | .parsed globs => some (extract_glob globs)
  | .missing => some .Unknown

/-- `MimeInfoDb::load_mime_info`: `File::open` failure (missing file) yields
`Unknown`, otherwise the content is read and parsed. -/
def load_mime_info (disk : String → FileOutcome) (mime : String) : Option Mime :=
  match disk mime with
  | .missing => some .Unknown
  | other => parse_mime_info other

/-- The environment `MimeInfoDb` reads from: `db_root_path` (`none` when the
configured root was missing or not a directory) giving the glob-database
contents, and `mime_db::extensions`, the built-in static mime→extensions
table. -/
structure DbEnv where
  dbRoot : Option (String → FileOutcome)
  staticExts : String → Option (List String)

/-- The in-memory cache `mime_map`, modelled as an association list where
the most recent binding for a key shadows earlier ones (insertion =
consing). -/
abbrev MimeCache := List (String × Mime)

/-- `FnvHashMap` lookup. -/
def cacheLookup (c : MimeCache) (k : String) : Option Mime :=
  match c with
  | [] => none
  | (k1, v) :: rest => if k1 = k then some v else cacheLookup rest k

/-- `FnvHashMap` insert (entry insertion / overwrite). -/
def cacheInsert (c : MimeCache) (k : String) (v : Mime) : MimeCache :=
  (k, v) :: c

/-- The miss path of `MimeInfoDb::get` (the `or_insert_with` closure):
consult the on-disk glob database first (`Unknown` when no db root), and on
`Unknown` fall back to the static table (`mime_db::extensions`): a nonempty
extension list gives `WithExt` of its first element, an empty list gives
`Generic`, an absent entry stays `Unknown`. `none` = panic propagated from
`parse_mime_info`. -/
def resolveMiss (env : DbEnv) (mime : String) : Option Mime :=
  let diskInfo :=
    match env.dbRoot with
    | some disk => load_mime_info disk mime
    | none => some .Unknown
  match diskInfo with
  | none => none
  | some mimeInfo =>
    if mimeInfo = .Unknown then
      match env.staticExts mime with
      | some exts =>
        match exts with
        | [] => some .Generic
        | e :: _ => some (.WithExt e)
      | none => some .Unknown
    else some mimeInfo

/-- `MimeInfoDb::get`: return the cached value when present; otherwise
resolve via `resolveMiss` and insert the result into the cache
(`entry(..).or_insert_with(..)`). `none` = panic. -/
def dbGet (env : DbEnv) (db : MimeCache) (mime : String) : Option (Mime × MimeCache) :=
  match cacheLookup db mime with
  | some v => some (v, db)
  | none =>
    match resolveMiss env mime with
    | some v => some (v, cacheInsert db mime v)
    | none => none

/-- `MimeInfoDb::set`: unconditional overwrite with `WithExt ext`. -/
def dbSet (db : MimeCache) (mime : String) (ext : String) : MimeCache :=
  cacheInsert db mime (.WithExt ext)

/-! ### Cache lemmas -/

theorem cacheLookup_insert_self (db : MimeCache) (k : String) (v : Mime) :
    cacheLookup (cacheInsert db k v) k = some v := by
  simp [cacheLookup, cacheInsert]

theorem dbGet_cached (env : DbEnv) (db : MimeCache) (mime : String) (v : Mime)
    (h : cacheLookup db mime = some v) : dbGet env db mime = some (v, db) := by
  simp [dbGet, h]

/-- After a successful `get`, the returned value is in the cache. -/
theorem dbGet_caches (env : DbEnv) (db : MimeCache) (mime : String) (v : Mime)
    (db1 : MimeCache) (h : dbGet env db mime = some (v, db1)) :
    cacheLookup db1 mime = some v := by
  unfold dbGet at h
  cases hc : cacheLookup db mime with
  | some w =>
    rw [hc] at h
    simp only [Option.some.injEq, Prod.mk.injEq] at h
    rw [← h.1, ← h.2]
    exact hc
  | none =>
    rw [hc] at h
    cases hr : resolveMiss env mime with
    | none => rw [hr] at h; exact absurd h (by simp)
    | some w =>
      rw [hr] at h
      simp only [Option.some.injEq, Prod.mk.injEq] at h
      rw [← h.1, ← h.2]
      apply cacheLookup_insert_self

/-- A second `get` for the same mime, under *any* environment (any disk
contents, any static table), returns the identical value and leaves the
cache unchanged: the disk and static table are not consulted again. -/
theorem dbGet_idem (env env2 : DbEnv) (db : MimeCache) (mime : String) (v : Mime)
    (db1 : MimeCache) (h : dbGet env db mime = some (v, db1)) :
    dbGet env2 db1 mime = some (v, db1) :=
  dbGet_cached env2 db1 mime v (dbGet_caches env db mime v db1 h)

/-! ### Classifier (`lib.rs`: `FileType`, `Classifier::process_file`) -/

/-- `FileType`: the classification result. -/
structure FileType where
  mime : Option String
  ext : Option String
  deriving DecidableEq, Repr

/-- `FileType::unknown()`. -/
def FileType.unknown : FileType := ⟨none, none⟩

/-- External oracles seen by `process_file` for one input path:
`sniff` is `tree_magic_mini::from_filepath` (quick content sniff, `none`
when undetermined); `cookieMime` / `cookieExt` are the two libmagic handles
(`cookie_mime_opt` / `cookie_ext_opt`): outer `none` = handle unavailable,
`some none` = `cookie.file(path)` returns `Err`, `some (some s)` = the call
succeeds with result `s`. -/
structure ProcEnv where
  sniff : Option String
  usedFor : List String
  cookieMime : Option (Option String)
  cookieExt : Option (Option String)
  dbEnv : DbEnv

/-- Result of `process_file`, instrumented with whether the MIME-tuned and
extension-tuned libmagic handles were actually invoked, and with the
`libmagic_used` flag (`usedDeepInspector`). -/
structure ProcResult where
  ft : FileType
  db : MimeCache
  usedDeep : Bool
  invokedMime : Bool
  invokedExt : Bool
  deriving DecidableEq, Repr

/-- The `mime_type_final` block of `process_file` (lines 110-126): when the
quick-sniff mime is in `libmagic_used_for` and the MIME-tuned handle
exists, `cookie.file` is invoked; on success the refined mime replaces the
sniffed one and `libmagic_used` is set; on failure (and in every other
case) the sniffed mime is kept with the flag false. Returns
`(mime_type_final, libmagic_used, invoked)`. -/
def refineMime (sniff : String) (usedFor : List String)
    (cookieMime : Option (Option String)) : String × Bool × Bool :=
  if usedFor.contains sniff then
    match cookieMime with
    | some callResult =>
      match callResult with
      | some refined => (refined, true, true)
      | none => (sniff, false, true)
    | none => (sniff, false, false)
  else (sniff, false, false)

/-- Rust `exts.split('/').next().unwrap()`: the first slash-separated
alternative. -/
def firstAlternative (exts : String) : String :=
  String.mk (exts.data.takeWhile (fun c => ¬ c = '/'))

/-- `Classifier::process_file`: the full cascade. `none` = panic (only
possible through `parse_mime_info` on a malformed glob-database file).
Stage order as in the source: quick sniff; trigger-gated libmagic mime
refinement; `guess_extension` via `MimeInfoDb::get`; when that is not
`WithExt`, the extension-tuned handle is consulted only if `libmagic_used`
holds, and a successful non-empty, non-`"???"` candidate string's first
alternative is written back into the database via `set`. -/
def processFile (env : ProcEnv) (db : MimeCache) : Option ProcResult :=
  match env.sniff with
  | none => some ⟨FileType.unknown, db, false, false, false⟩
  | some mimeType =>
    let r := refineMime mimeType env.usedFor env.cookieMime
    let mimeFinal := r.1
    let used := r.2.1
    let invM := r.2.2
    match dbGet env.dbEnv db mimeFinal with
    | none => none
    | some (m, db1) =>
      match m with
      | .WithExt e => some ⟨⟨some mimeFinal, some e⟩, db1, used, invM, false⟩
      | _ =>
        match env.cookieExt, used with
        | some (some exts), true =>
          if 0 < exts.length ∧ exts ≠ "???" then
            let ext := firstAlternative exts
            some ⟨⟨some mimeFinal, some ext⟩, dbSet db1 mimeFinal ext, used, invM, true⟩
          else some ⟨⟨some mimeFinal, none⟩, db1, used, invM, true⟩
        | some none, true => some ⟨⟨some mimeFinal, none⟩, db1, used, invM, true⟩
        | _, _ => some ⟨⟨some mimeFinal, none⟩, db1, used, invM, false⟩

/-! ### Output placement (`random_name`, `append_ext_if_needed`,
`link_to_output`) -/

/-- `random_name`: the injected 6-character alphanumeric random string `r`,
with the resolved extension appended directly when present
(`name += &e` — note: no `.` separator and no comparison). -/
def randomName (r : String) (ext : Option String) : String :=
  match ext with
  | some e => r ++ e
  | none => r

/-- `append_ext_if_needed`: when an extension was resolved and the file
name's current extension (empty when absent, `unwrap_or("")`) differs from
it, `.` + ext is appended; otherwise the name is unchanged. -/
def appendExtIfNeeded (fileName : String) (ext : Option String) : String :=
  match ext with
  | none => fileName
  | some e =>
    let fileExt := ((fileStemExt fileName.data).2).getD []
    if fileExt = e.data then fileName
    else fileName ++ "." ++ e

/-- The initial `output_name` of `link_to_output`: from the source path's
file name when present, otherwise from `random_name`. -/
def outputBaseName (srcFileName : Option String) (r : String) (ext : Option String) : String :=
  match srcFileName with
  | some n => appendExtIfNeeded n ext
  | none => randomName r ext

/-- The `output_link_dir` of `link_to_output`, as path components:
`output_root / (mime or "unknown") / relativeParent` (the relative parent
only when the source lies under the input root and has a parent). -/
def outputDir (outputRoot : List String) (mime : Option String)
    (relParent : Option (List String)) : List String :=
  (outputRoot ++ [mime.getD "unknown"]) ++ relParent.getD []

/-- One step of the collision loop: the current name's stem, `-`, a fresh
random string, and the current name's extension re-appended when present
(`output_name.file_stem()` / `output_name.extension()`); when the name has
no stem, a fresh `random_name` with the file type's extension. -/
def nextName (name : String) (r : String) (ftExt : Option String) : String :=
  match pathFileStem name.data with
  | some stem =>
    let base := stem ++ ['-'] ++ r.data
    match pathExtension name.data with
    | some e => String.mk (base ++ ['.'] ++ e)
    | none => String.mk base
  | none => randomName r ftExt

/-- The `while fs::symlink_metadata(..).is_ok()` collision loop of
`link_to_output`, over the set of names already existing in the output
directory (link-aware existence = list membership) and the injected stream
of random strings; `none` when the stream runs out (the real loop would
keep drawing). -/
def findFreeName (existing : List String) (ftExt : Option String) :
    String → List String → Option String
  | name, [] => if name ∈ existing then none else some name
  | name, r :: rest =>
    if name ∈ existing then findFreeName existing ftExt (nextName name r ftExt) rest
    else some name

/-- Sequential placement of several inputs into one output directory: each
chosen name becomes an existing entry (the symlink is created) before the
next input is placed. Each input carries its starting base name and its
random stream. -/
def placeAll (existing : List String) (ftExt : Option String) :
    List (String × List String) → Option (List String)
  | [] => some []
  | (base, rands) :: rest =>
    match findFreeName existing ftExt base rands with
    | none => none
    | some n =>
      match placeAll (n :: existing) ftExt rest with
      | none => none
      | some ns => some (n :: ns)

/-! ### Placement lemmas -/

/-- The collision loop never returns a name that already exists. -/
theorem findFreeName_not_mem (existing : List String) (ftExt : Option String) :
    ∀ (rands : List String) (name n : String),
      findFreeName existing ftExt name rands = some n → n ∉ existing := by
  intro rands
  induction rands with
  | nil =>
    intro name n h
    unfold findFreeName at h
    by_cases hm : name ∈ existing
    · rw [if_pos hm] at h; exact absurd h (by simp)
    · rw [if_neg hm] at h
      rw [← Option.some.inj h]; exact hm
  | cons r rest ih =>
    intro name n h
    unfold findFreeName at h
    by_cases hm : name ∈ existing
    · rw [if_pos hm] at h
      exact ih (nextName name r ftExt) n h
    · rw [if_neg hm] at h
      rw [← Option.some.inj h]; exact hm

/-- Sequential placement yields pairwise-distinct names, none of which
existed before the run. -/
theorem placeAll_distinct (ftExt : Option String) :
    ∀ (inputs : List (String × List String)) (existing : List String) (ns : List String),
      placeAll existing ftExt inputs = some ns →
      ns.Nodup ∧ ∀ n ∈ ns, n ∉ existing := by
  intro inputs
  induction inputs with
  | nil =>
    intro existing ns h
    unfold placeAll at h
    rw [← Option.some.inj h]
    simp
  | cons p rest ih =>
    intro existing ns h
    unfold placeAll at h
    cases hf : findFreeName existing ftExt p.1 p.2 with
    | none => rw [hf] at h; exact absurd h (by simp)
    | some n =>
      rw [hf] at h
      have h2 : (match placeAll (n :: existing) ftExt rest with
          | none => none
          | some ns => some (n :: ns)) = some ns := h
      cases hp : placeAll (n :: existing) ftExt rest with
      | none => rw [hp] at h2; exact absurd h2 (by simp)
      | some ns1 =>
        rw [hp] at h2
        rw [← Option.some.inj h2]
        have hn : n ∉ existing := findFreeName_not_mem existing ftExt p.2 p.1 n hf
        obtain ⟨hnodup, hmem⟩ := ih (n :: existing) ns1 hp
        refine ⟨List.nodup_cons.mpr ⟨fun hc => ?_, hnodup⟩, ?_⟩
        · exact (hmem n hc) (List.mem_cons_self n existing)
        · intro m hm
          rcases List.mem_cons.mp hm with h1 | h1
          · rw [h1]; exact hn
          · intro hc
            exact (hmem m h1) (List.mem_cons_of_mem n hc)

/-- Structural facts about `process_file` when the sniff succeeds: the
instrumented flags and resulting mime agree with the `mime_type_final`
block, and the extension-tuned handle is only ever invoked when
`libmagic_used` holds and the handle exists. -/
theorem processFile_shape (sniff : String) (usedFor : List String)
    (ckM ckE : Option (Option String)) (denv : DbEnv) (db : MimeCache) (res : ProcResult)
    (h : processFile ⟨some sniff, usedFor, ckM, ckE, denv⟩ db = some res) :
    res.invokedMime = (refineMime sniff usedFor ckM).2.2 ∧
    res.usedDeep = (refineMime sniff usedFor ckM).2.1 ∧
    res.ft.mime = some (refineMime sniff usedFor ckM).1 ∧
    (res.usedDeep = false → res.invokedExt = false) ∧
    (ckE = none → res.invokedExt = false) := by
  unfold processFile at h
  simp only at h
  split at h
  next hg => exact absurd h (by simp)
  next m db1 hg =>
    split at h
    all_goals try (rw [← Option.some.inj h]; exact ⟨rfl, rfl, rfl, fun _ => rfl, fun _ => rfl⟩)
    split at h
    all_goals try split at h
    all_goals rw [← Option.some.inj h]
    all_goals refine ⟨rfl, rfl, rfl, fun hf => ?_, fun he => ?_⟩
    all_goals try rfl
    all_goals simp_all

/-! ### Definitions following the spec's words (for comparison only) -/

/-- Modelled from the spec's words (C4 comparison): strip *a single* leading
`*.` from the glob pattern, as the claim's "with a leading `*.` stripped"
reads. The source instead uses `trim_start_matches`, which strips
repeatedly. -/
def specStripOneStarDot : List Char → List Char
  | '*' :: '.' :: rest => rest
  | s => s

/-- Modelled from the spec's words (C7 comparison): the claimed base-name
rule, where the synthesized random name also gets the conditional
`.`-separated extension append. The source's `random_name` instead appends
the extension directly, without a separator or comparison. -/
def specOutputBaseName (src : Option String) (r : String) (ext : Option String) : String :=
  match src with
  | some n => appendExtIfNeeded n ext
  | none => appendExtIfNeeded r ext

/-! ## Claims -/

/-- C1: Backup/restore round trip: backing up a symlink (encoded as
`<name>.lns` containing the raw target bytes plus one `\n` byte) and a
directory, then restoring, reproduces the directory and a symlink with the
same name whose target is exactly the original byte sequence — no trailing
newline added, no bytes truncated — for arbitrary (possibly non-text)
target bytes. -/
theorem C1_backup_restore_roundtrip (name : List Char) (target : List Nat)
    (relpath : List (List Char)) (hne : name ≠ []) :
    restoreFile (encodeLinkName name) (encodeLinkContent target) = some (some (name, target)) ∧
    restoreDir (backupDir relpath) = relpath := by
  constructor
  · rw [restoreFile, if_pos (pathExtension_encode name hne), stripNewline_encode,
      pathFileStem_encode name hne]
    rfl
  · rfl

theorem C1_backup_restore_roundtrip_witness :
    (['l', 'i', 'n', 'k'] : List Char) ≠ [] ∧
    (restoreFile (encodeLinkName ['l', 'i', 'n', 'k'])
        (encodeLinkContent [47, 101, 116, 99, 0, 255]) =
      some (some (['l', 'i', 'n', 'k'], [47, 101, 116, 99, 0, 255])) ∧
      restoreDir (backupDir [['s', 'u', 'b']]) = [['s', 'u', 'b']]) :=
  ⟨by decide,
   C1_backup_restore_roundtrip ['l', 'i', 'n', 'k'] [47, 101, 116, 99, 0, 255]
     [['s', 'u', 'b']] (by decide)⟩

/-- C8: when the signature oracle yields nothing, classification returns
`FileType{mime: None, ext: None}` immediately — no deep-inspector
invocation, no database access, cache unchanged — and placement chooses the
`unknown` type directory. -/
theorem C8_unknown_classification (env : ProcEnv) (db : MimeCache)
    (h : env.sniff = none) (outputRoot : List String) (relParent : Option (List String)) :
    processFile env db = some ⟨FileType.unknown, db, false, false, false⟩ ∧
    outputDir outputRoot none relParent = outputRoot ++ ["unknown"] ++ relParent.getD [] := by
  constructor
  · obtain ⟨s, u, cm, ce, de⟩ := env
    simp only at h
    subst h
    rfl
  · rfl

theorem C8_unknown_classification_witness :
    (ProcEnv.sniff ⟨none, [], none, none, ⟨none, fun _ => none⟩⟩ = none) ∧
    (processFile ⟨none, [], none, none, ⟨none, fun _ => none⟩⟩ [] =
        some ⟨FileType.unknown, [], false, false, false⟩ ∧
      outputDir ["out"] none none = ["out"] ++ ["unknown"] ++ []) :=
  ⟨rfl, C8_unknown_classification ⟨none, [], none, none, ⟨none, fun _ => none⟩⟩ []
    rfl ["out"] none⟩

/-- C9: entry-kind filtering: `run_backup` produces no output for a
regular-file entry (only directories and symlinks are encoded), and
`restore_symlink` silently ignores any file whose extension is not exactly
`lns`. -/
theorem C9_entry_kind_filtering :
    (∀ name : List Char, backupStep .file name = none) ∧
    (∀ (name : List Char) (content : List Nat),
      pathExtension name ≠ some lnsExt → restoreFile name content = some none) := by
  refine ⟨fun _ => rfl, fun name content h => ?_⟩
  rw [restoreFile, if_neg h]

theorem C9_entry_kind_filtering_witness :
    (pathExtension ['a', '.', 't', 'x', 't'] ≠ some lnsExt) ∧
    (backupStep .file ['a'] = none ∧
      restoreFile ['a', '.', 't', 'x', 't'] [104, 105] = some none) :=
  ⟨by decide,
   C9_entry_kind_filtering.1 ['a'],
   C9_entry_kind_filtering.2 ['a', '.', 't', 'x', 't'] [104, 105] (by decide)⟩

/-- C10: the trailing-newline check of `restore_symlink` reads the byte at
position `len - 1` with no emptiness guard: restoring a `.lns` file is
well-defined (in-bounds, at most one byte stripped) exactly when the file's
content is non-empty; an empty `.lns` file falls outside the safe domain
(modelled as the panic value `none`). -/
theorem C10_strip_requires_nonempty :
    stripNewline [] = none ∧
    restoreFile (encodeLinkName ['a']) [] = none ∧
    ∀ bytes : List Nat, bytes ≠ [] →
      ∃ res, stripNewline bytes = some res ∧
        ((bytes.getLast? = some 10 ∧ res = bytes.dropLast) ∨
          (bytes.getLast? ≠ some 10 ∧ res = bytes)) := by
  refine ⟨rfl, by decide, fun bytes hne => ?_⟩
  cases hl : bytes.getLast? with
  | none => exact absurd (List.getLast?_eq_none_iff.mp hl) hne
  | some b =>
    by_cases hb : b = 10
    · subst hb
      exact ⟨bytes.dropLast, by rw [stripNewline, hl]; simp, Or.inl ⟨rfl, rfl⟩⟩
    · exact ⟨bytes, by rw [stripNewline, hl]; simp [hb], Or.inr ⟨by simp [hb], rfl⟩⟩

theorem C10_strip_requires_nonempty_witness :
    ([10] : List Nat) ≠ [] ∧
    ∃ res, stripNewline [10] = some res ∧
      ((([10] : List Nat).getLast? = some 10 ∧ res = ([10] : List Nat).dropLast) ∨
        (([10] : List Nat).getLast? ≠ some 10 ∧ res = [10])) :=
  ⟨by decide, C10_strip_requires_nonempty.2.2 [10] (by decide)⟩

/-- C5: trigger-set gating: the MIME-tuned deep inspector is invoked during
classification if and only if the quick-sniff mime is in the configured
trigger set and the handle is available; a mime absent from
`libmagic.used_for` never causes a deep-inspector invocation (MIME- or
extension-tuned) even when handles exist; on deep-inspection failure the
quick-sniff mime is kept and `usedDeepInspector` stays false. -/
theorem C5_trigger_gating :
    (∀ (sniff : String) (usedFor : List String) (ck : Option (Option String)),
      (refineMime sniff usedFor ck).2.2 = (usedFor.contains sniff && ck.isSome) ∧
      (ck = some none →
        refineMime sniff usedFor ck = (sniff, false, usedFor.contains sniff))) ∧
    (∀ (sniff : String) (usedFor : List String) (ckM ckE : Option (Option String))
        (denv : DbEnv) (db : MimeCache) (res : ProcResult),
      processFile ⟨some sniff, usedFor, ckM, ckE, denv⟩ db = some res →
      (res.invokedMime = (usedFor.contains sniff && ckM.isSome)) ∧
      (usedFor.contains sniff = false → res.invokedMime = false ∧ res.invokedExt = false) ∧
      (ckM = some none → res.ft.mime = some sniff ∧ res.usedDeep = false)) := by
  have hstep : ∀ (sniff : String) (usedFor : List String) (ck : Option (Option String)),
      (refineMime sniff usedFor ck).2.2 = (usedFor.contains sniff && ck.isSome) ∧
      (ck = some none →
        refineMime sniff usedFor ck = (sniff, false, usedFor.contains sniff)) := by
    intro sniff usedFor ck
    by_cases hm : sniff ∈ usedFor <;>
      rcases ck with _ | (_ | refined) <;>
      simp [refineMime, hm]
  refine ⟨hstep, fun sniff usedFor ckM ckE denv db res h => ?_⟩
  obtain ⟨h1, h2, h3, h4, _⟩ := processFile_shape sniff usedFor ckM ckE denv db res h
  refine ⟨?_, fun hc => ⟨?_, ?_⟩, fun hck => ⟨?_, ?_⟩⟩
  · rw [h1, (hstep sniff usedFor ckM).1]
  · rw [h1, (hstep sniff usedFor ckM).1, hc]
    rfl
  · apply h4
    rw [h2]
    have hm : ¬ sniff ∈ usedFor := by simpa using hc
    rcases ckM with _ | (_ | refined) <;> simp [refineMime, hm]
  · rw [h3, (hstep sniff usedFor ckM).2 hck]
  · rw [h2, (hstep sniff usedFor ckM).2 hck]

theorem C5_trigger_gating_witness :
    (refineMime "a/b" ["a/b"] (some none) = ("a/b", false, ["a/b"].contains "a/b")) ∧
    (ProcResult.invokedMime
        ⟨⟨some "x/y", none⟩, [("x/y", .Unknown)], false, false, false⟩ = false ∧
      ProcResult.invokedExt
        ⟨⟨some "x/y", none⟩, [("x/y", .Unknown)], false, false, false⟩ = false) ∧
    ((ProcResult.ft ⟨⟨some "a/b", none⟩, [("a/b", .Unknown)], false, true, false⟩).mime =
        some "a/b" ∧
      ProcResult.usedDeep
        ⟨⟨some "a/b", none⟩, [("a/b", .Unknown)], false, true, false⟩ = false) :=
  ⟨(C5_trigger_gating.1 "a/b" ["a/b"] (some none)).2 rfl,
   (C5_trigger_gating.2 "x/y" [] none none ⟨none, fun _ => none⟩ []
      ⟨⟨some "x/y", none⟩, [("x/y", .Unknown)], false, false, false⟩ rfl).2.1 rfl,
   (C5_trigger_gating.2 "a/b" ["a/b"] (some none) none ⟨none, fun _ => none⟩ []
      ⟨⟨some "a/b", none⟩, [("a/b", .Unknown)], false, true, false⟩ rfl).2.2 rfl⟩

/-- C6: deep extension fallback and write-back: when the database lookup
did not yield `WithExt`, and only when `usedDeepInspector` is true and the
extension-tuned handle is available, the candidate string is consulted; an
empty string or the sentinel `"???"` means no extension; otherwise the
substring before the first `/` becomes the extension and is written back
into the database under the resolved mime key, so a later lookup for the
same mime returns `WithExt` without re-invoking the deep inspector. -/
theorem C6_deep_ext_writeback (sniff : String) (usedFor : List String)
    (ckM : Option (Option String)) (exts : String) (denv : DbEnv) (db db1 : MimeCache)
    (mf : String) (v : Mime)
    (hr : refineMime sniff usedFor ckM = (mf, true, true))
    (hg : dbGet denv db mf = some (v, db1))
    (hnw : ∀ e, v ≠ .WithExt e) :
    (0 < exts.length ∧ exts ≠ "???" →
      processFile ⟨some sniff, usedFor, ckM, some (some exts), denv⟩ db =
        some ⟨⟨some mf, some (firstAlternative exts)⟩,
          dbSet db1 mf (firstAlternative exts), true, true, true⟩ ∧
      ∀ env2 : DbEnv, dbGet env2 (dbSet db1 mf (firstAlternative exts)) mf =
        some (.WithExt (firstAlternative exts), dbSet db1 mf (firstAlternative exts))) ∧
    (¬(0 < exts.length ∧ exts ≠ "???") →
      processFile ⟨some sniff, usedFor, ckM, some (some exts), denv⟩ db =
        some ⟨⟨some mf, none⟩, db1, true, true, true⟩) ∧
    (∀ (sniff2 : String) (usedFor2 : List String) (ckM2 ckE2 : Option (Option String))
        (denv2 : DbEnv) (db2 : MimeCache) (res : ProcResult),
      processFile ⟨some sniff2, usedFor2, ckM2, ckE2, denv2⟩ db2 = some res →
      (res.usedDeep = false → res.invokedExt = false) ∧
      (ckE2 = none → res.invokedExt = false)) := by
  refine ⟨fun hc => ⟨?_, fun env2 => ?_⟩, fun hc => ?_, fun s2 u2 cm2 ce2 dv2 db2 res h =>
    ⟨(processFile_shape s2 u2 cm2 ce2 dv2 db2 res h).2.2.2.1,
     (processFile_shape s2 u2 cm2 ce2 dv2 db2 res h).2.2.2.2⟩⟩
  · simp only [processFile, hr, hg]
    rw [if_pos hc]
  · exact dbGet_cached env2 (dbSet db1 mf (firstAlternative exts)) mf
      (.WithExt (firstAlternative exts)) (cacheLookup_insert_self db1 mf _)
  · simp only [processFile, hr, hg]
    rw [if_neg hc]

theorem C6_deep_ext_writeback_witness :
    (0 < "rar/r00".length ∧ "rar/r00" ≠ "???") ∧
    (processFile ⟨some "application/zip", ["application/zip"],
        some (some "application/x-rar"), some (some "rar/r00"), ⟨none, fun _ => none⟩⟩ [] =
      some ⟨⟨some "application/x-rar", some (firstAlternative "rar/r00")⟩,
        dbSet [("application/x-rar", Mime.Unknown)] "application/x-rar"
          (firstAlternative "rar/r00"), true, true, true⟩) ∧
    (dbGet ⟨none, fun _ => none⟩
        (dbSet [("application/x-rar", Mime.Unknown)] "application/x-rar"
          (firstAlternative "rar/r00")) "application/x-rar" =
      some (.WithExt (firstAlternative "rar/r00"),
        dbSet [("application/x-rar", Mime.Unknown)] "application/x-rar"
          (firstAlternative "rar/r00"))) :=
  ⟨⟨by decide, by decide⟩,
   ((C6_deep_ext_writeback "application/zip" ["application/zip"]
      (some (some "application/x-rar")) "rar/r00" ⟨none, fun _ => none⟩ []
      [("application/x-rar", Mime.Unknown)] "application/x-rar" .Unknown rfl rfl
      (fun e h => Mime.noConfusion h)).1 ⟨by decide, by decide⟩).1,
   ((C6_deep_ext_writeback "application/zip" ["application/zip"]
      (some (some "application/x-rar")) "rar/r00" ⟨none, fun _ => none⟩ []
      [("application/x-rar", Mime.Unknown)] "application/x-rar" .Unknown rfl rfl
      (fun e h => Mime.noConfusion h)).1 ⟨by decide, by decide⟩).2 ⟨none, fun _ => none⟩⟩

/-- `resolveMiss` can only panic through `parse_mime_info`: when the glob
database never produces a parse error for this mime, resolution succeeds. -/
theorem resolveMiss_isSome (env : DbEnv) (mime : String)
    (hdisk : ∀ disk, env.dbRoot = some disk → disk mime ≠ .parseError) :
    (resolveMiss env mime).isSome := by
  unfold resolveMiss
  cases hr : env.dbRoot with
  | none =>
    rcases hs : env.staticExts mime with _ | ⟨_ | ⟨e, es⟩⟩ <;> simp [hs]
  | some disk =>
    cases hd : disk mime with
    | parseError => exact absurd hd (hdisk disk hr)
    | missing =>
      rcases hs : env.staticExts mime with _ | ⟨_ | ⟨e, es⟩⟩ <;>
        simp [load_mime_info, parse_mime_info, hd, hs]
    | unreadable =>
      rcases hs : env.staticExts mime with _ | ⟨_ | ⟨e, es⟩⟩ <;>
        simp [load_mime_info, parse_mime_info, hd, hs]
    | parsed globs =>
      rcases globs with _ | ⟨_ | p, rest⟩ <;>
        rcases hs : env.staticExts mime with _ | ⟨_ | ⟨e, es⟩⟩ <;>
        simp [load_mime_info, parse_mime_info, extract_glob, hd, hs]

theorem dbGet_isSome (env : DbEnv) (db : MimeCache) (mime : String)
    (hdisk : ∀ disk, env.dbRoot = some disk → disk mime ≠ .parseError) :
    (dbGet env db mime).isSome := by
  unfold dbGet
  cases hc : cacheLookup db mime with
  | some v => simp
  | none =>
    have h := resolveMiss_isSome env mime hdisk
    cases hr : resolveMiss env mime with
    | none => rw [hr] at h; exact absurd h (by simp)
    | some v => simp [hr]

theorem processFile_isSome (sniff : Option String) (usedFor : List String)
    (ckM ckE : Option (Option String)) (denv : DbEnv) (db : MimeCache)
    (hdisk : ∀ disk, denv.dbRoot = some disk → ∀ m, disk m ≠ .parseError) :
    (processFile ⟨sniff, usedFor, ckM, ckE, denv⟩ db).isSome := by
  cases sniff with
  | none => simp [processFile]
  | some mt =>
    simp only [processFile]
    have h := dbGet_isSome denv db (refineMime mt usedFor ckM).1
      (fun d hd => hdisk d hd (refineMime mt usedFor ckM).1)
    cases hg : dbGet denv db (refineMime mt usedFor ckM).1 with
    | none => rw [hg] at h; exact absurd h (by simp)
    | some p =>
      obtain ⟨m, db1⟩ := p
      rcases m with _ | e | _ <;>
        rcases ckM2 : ckE with _ | ⟨_ | exts⟩ <;>
        cases hu : (refineMime mt usedFor ckM).2.1 <;>
        simp_all <;> split <;> simp

/-- C2 counterexample: a glob-database file that exists and is readable but
whose content fails to parse as XML makes classification panic
(`parse_mime_info` ends in `panic!`), so classification can fail for some
on-disk glob-database content. -/
theorem C2_counterexample :
    processFile ⟨some "text/plain", [], none, none,
      ⟨some (fun _ => .parseError), fun _ => none⟩⟩ [] = none := rfl

/-- C2 (amended): `Classifier::process_file` never fails provided no
glob-database file that exists and is readable fails to parse as XML (a
parse failure panics); under that proviso every per-file failure degrades
and the worst outcome, when the sniff yields nothing, is
`FileType{mime: None, ext: None}`. -/
theorem C2_no_panic_amended (sniff : Option String) (usedFor : List String)
    (ckM ckE : Option (Option String)) (denv : DbEnv) (db : MimeCache)
    (hdisk : ∀ disk, denv.dbRoot = some disk → ∀ m, disk m ≠ .parseError) :
    (processFile ⟨sniff, usedFor, ckM, ckE, denv⟩ db).isSome ∧
    (sniff = none →
      processFile ⟨sniff, usedFor, ckM, ckE, denv⟩ db =
        some ⟨FileType.unknown, db, false, false, false⟩) := by
  refine ⟨processFile_isSome sniff usedFor ckM ckE denv db hdisk, fun hs => ?_⟩
  subst hs
  rfl

theorem C2_no_panic_amended_witness :
    (processFile ⟨none, ["a/b"], none, none, ⟨none, fun _ => none⟩⟩ []).isSome ∧
    processFile ⟨none, ["a/b"], none, none, ⟨none, fun _ => none⟩⟩ [] =
      some ⟨FileType.unknown, [], false, false, false⟩ :=
  ⟨(C2_no_panic_amended none ["a/b"] none none ⟨none, fun _ => none⟩ []
      (fun d hd => Option.noConfusion hd)).1,
   (C2_no_panic_amended none ["a/b"] none none ⟨none, fun _ => none⟩ []
      (fun d hd => Option.noConfusion hd)).2 rfl⟩

/-- C4 counterexample: the source strips *all* leading `*.` occurrences
(`trim_start_matches`), not a single one as the claim states: on the glob
pattern `*.*.tar` the code yields `WithExt "tar"`, while a single strip
would yield `WithExt "*.tar"`. -/
theorem C4_counterexample :
    extract_glob [some "*.*.tar"] = .WithExt "tar" ∧
    Mime.WithExt (String.mk (specStripOneStarDot "*.*.tar".data)) = .WithExt "*.tar" ∧
    Mime.WithExt "tar" ≠ .WithExt "*.tar" := by
  refine ⟨?_, ?_, ?_⟩ <;> decide

/-- C4 (amended): `ExtensionDatabase.get` contract: on a cache miss the
on-disk glob database is consulted first (first glob pattern with *all*
leading `*.` occurrences stripped becomes `WithExt`; no glob element yields
`Generic`; a missing/unreadable file yields `Unknown`), then on `Unknown`
the built-in static table; the resolved value is cached so every later
`get` for the same mime returns the identical value and state under any
environment, without re-reading the disk or the static table. -/
theorem C4_caching_amended :
    (∀ (env : DbEnv) (db : MimeCache) (mime : String) (v : Mime),
      cacheLookup db mime = some v → dbGet env db mime = some (v, db)) ∧
    (∀ (env env2 : DbEnv) (db db1 : MimeCache) (mime : String) (v : Mime),
      dbGet env db mime = some (v, db1) → dbGet env2 db1 mime = some (v, db1)) ∧
    (∀ (disk : String → FileOutcome) (static : String → Option (List String))
        (db : MimeCache) (mime : String), cacheLookup db mime = none →
      (∀ p rest, disk mime = .parsed (some p :: rest) →
        dbGet ⟨some disk, static⟩ db mime =
          some (.WithExt (String.mk (trimStarDot p.data)),
            cacheInsert db mime (.WithExt (String.mk (trimStarDot p.data))))) ∧
      (disk mime = .parsed [] →
        dbGet ⟨some disk, static⟩ db mime = some (.Generic, cacheInsert db mime .Generic)) ∧
      ((disk mime = .missing ∨ disk mime = .unreadable) →
        (static mime = none →
          dbGet ⟨some disk, static⟩ db mime = some (.Unknown, cacheInsert db mime .Unknown)) ∧
        (∀ e es, static mime = some (e :: es) →
          dbGet ⟨some disk, static⟩ db mime =
            some (.WithExt e, cacheInsert db mime (.WithExt e))))) := by
  refine ⟨fun env db mime v h => dbGet_cached env db mime v h,
    fun env env2 db db1 mime v h => dbGet_idem env env2 db mime v db1 h,
    fun disk static db mime hc =>
      ⟨fun p rest hd => ?_, fun hd => ?_, fun hd => ⟨fun hs => ?_, fun e es hs => ?_⟩⟩⟩
  · simp [dbGet, hc, resolveMiss, load_mime_info, parse_mime_info, extract_glob, hd]
  · simp [dbGet, hc, resolveMiss, load_mime_info, parse_mime_info, extract_glob, hd]
  · rcases hd with hd | hd <;>
      simp [dbGet, hc, resolveMiss, load_mime_info, parse_mime_info, hd, hs]
  · rcases hd with hd | hd <;>
      simp [dbGet, hc, resolveMiss, load_mime_info, parse_mime_info, hd, hs]

theorem C4_caching_amended_witness :
    (dbGet ⟨none, fun _ => none⟩ [("a/b", Mime.Generic)] "a/b" =
      some (.Generic, [("a/b", Mime.Generic)])) ∧
    (dbGet ⟨none, fun _ => none⟩ [("x/t", Mime.WithExt "tar")] "x/t" =
      some (.WithExt "tar", [("x/t", Mime.WithExt "tar")])) ∧
    (dbGet ⟨some (fun _ => FileOutcome.parsed [some "*.tar"]), fun _ => none⟩ [] "x/t" =
      some (.WithExt (String.mk (trimStarDot "*.tar".data)),
        cacheInsert [] "x/t" (.WithExt (String.mk (trimStarDot "*.tar".data))))) ∧
    (dbGet ⟨some (fun _ => FileOutcome.missing), fun _ => some ["zip"]⟩ [] "application/zip" =
      some (.WithExt "zip", cacheInsert [] "application/zip" (.WithExt "zip"))) :=
  ⟨C4_caching_amended.1 ⟨none, fun _ => none⟩ [("a/b", Mime.Generic)] "a/b" .Generic rfl,
   C4_caching_amended.2.1 ⟨some (fun _ => FileOutcome.parsed [some "*.tar"]), fun _ => none⟩
     ⟨none, fun _ => none⟩ [] [("x/t", Mime.WithExt "tar")] "x/t" (.WithExt "tar") rfl,
   (C4_caching_amended.2.2 (fun _ => FileOutcome.parsed [some "*.tar"]) (fun _ => none)
     [] "x/t" rfl).1 "*.tar" [] rfl,
   ((C4_caching_amended.2.2 (fun _ => FileOutcome.missing) (fun _ => some ["zip"])
     [] "application/zip" rfl).2.2 (Or.inl rfl)).2 "zip" [] rfl⟩

/-- C3: `link_to_output` never overwrites an existing entry: the collision
loop only ever returns a name not in the existing set (each retry derives
stem ++ `-` ++ fresh random suffix ++ original extension, exactly as in the
source's loop body), and placing several inputs that resolve to the same
base name into one output directory yields pairwise-distinct names, none
replacing another. -/
theorem C3_collision_avoidance :
    (∀ (existing : List String) (ftExt : Option String) (rands : List String) (name n : String),
      findFreeName existing ftExt name rands = some n → n ∉ existing) ∧
    (∀ (ftExt : Option String) (inputs : List (String × List String)) (existing ns : List String),
      placeAll existing ftExt inputs = some ns → ns.Nodup ∧ ∀ n ∈ ns, n ∉ existing) ∧
    (∀ (name r : String) (fe : Option String) (stem e : List Char),
      pathFileStem name.data = some stem → pathExtension name.data = some e →
      nextName name r fe = String.mk (stem ++ ['-'] ++ r.data ++ ['.'] ++ e)) := by
  refine ⟨fun ex fe rands name n h => findFreeName_not_mem ex fe rands name n h,
    fun fe inputs ex ns h => placeAll_distinct fe inputs ex ns h,
    fun name r fe stem e h1 h2 => ?_⟩
  simp [nextName, h1, h2]

theorem C3_collision_avoidance_witness :
    ("photo-abc123.jpg" ∉ ["photo.jpg"]) ∧
    (["photo-abc123.jpg", "photo-xyz789.jpg"].Nodup ∧
      ∀ n ∈ ["photo-abc123.jpg", "photo-xyz789.jpg"], n ∉ ["photo.jpg"]) ∧
    nextName "photo.jpg" "abc123" (some "jpg") =
      String.mk ("photo".data ++ ['-'] ++ "abc123".data ++ ['.'] ++ "jpg".data) :=
  ⟨C3_collision_avoidance.1 ["photo.jpg"] (some "jpg") ["abc123"] "photo.jpg"
     "photo-abc123.jpg" (by decide),
   C3_collision_avoidance.2.1 (some "jpg")
     [("photo.jpg", ["abc123"]), ("photo.jpg", ["xyz789"])] ["photo.jpg"]
     ["photo-abc123.jpg", "photo-xyz789.jpg"] (by decide),
   C3_collision_avoidance.2.2 "photo.jpg" "abc123" (some "jpg")
     "photo".data "jpg".data (by decide) (by decide)⟩

/-- C7 counterexample: when the source path has no file name component,
`random_name` appends the resolved extension directly — no `.` separator
and no comparison — so the claimed rule (append `.` + ext in either case)
fails on the random-name branch: with random string `abcdef` and extension
`pdf` the code produces `abcdefpdf`, not `abcdef.pdf`. -/
theorem C7_counterexample :
    outputBaseName none "abcdef" (some "pdf") = "abcdefpdf" ∧
    specOutputBaseName none "abcdef" (some "pdf") = "abcdef.pdf" ∧
    outputBaseName none "abcdef" (some "pdf") ≠
      specOutputBaseName none "abcdef" (some "pdf") := by
  refine ⟨?_, ?_, ?_⟩ <;> decide

/-- C7 (amended): when the source path has a file name, `.` + ext is
appended exactly when the resolved extension is present and differs
(exact, case-sensitive) from the name's current extension (`report` + `pdf`
→ `report.pdf`, `report.pdf` + `pdf` → `report.pdf`); when there is no file
name, the random 6-character name gets the extension appended directly,
with no `.` separator and no comparison. -/
theorem C7_base_name_amended (n r e : String) :
    (outputBaseName (some n) r none = n) ∧
    (((fileStemExt n.data).2).getD [] = e.data → outputBaseName (some n) r (some e) = n) ∧
    (((fileStemExt n.data).2).getD [] ≠ e.data →
      outputBaseName (some n) r (some e) = n ++ "." ++ e) ∧
    (outputBaseName none r (some e) = r ++ e) ∧
    (outputBaseName none r none = r) ∧
    (outputBaseName (some "report") "x" (some "pdf") = "report.pdf") ∧
    (outputBaseName (some "report.pdf") "x" (some "pdf") = "report.pdf") := by
  refine ⟨rfl, fun h => ?_, fun h => ?_, rfl, rfl, by decide, by decide⟩
  · simp [outputBaseName, appendExtIfNeeded, h]
  · simp [outputBaseName, appendExtIfNeeded, h]

theorem C7_base_name_amended_witness :
    (((fileStemExt "report.pdf".data).2).getD [] = "pdf".data ∧
      outputBaseName (some "report.pdf") "x" (some "pdf") = "report.pdf") ∧
    (((fileStemExt "report".data).2).getD [] ≠ "pdf".data ∧
      outputBaseName (some "report") "x" (some "pdf") = "report" ++ "." ++ "pdf") :=
  ⟨⟨by decide, (C7_base_name_amended "report.pdf" "x" "pdf").2.1 (by decide)⟩,
   ⟨by decide, (C7_base_name_amended "report" "x" "pdf").2.2.1 (by decide)⟩⟩

end Classifiles
